import Mathlib

/-!
Shallow embedding of the trading-simulator core
(trade outcome evaluation, timeframe resampling, time-window filtering,
cache orchestration, session bookkeeping), with theorems checking the
specification's claims against the embedded code.

Prices and volumes are modelled as rationals, timestamps as naturals
(minutes since a fixed epoch for bars; seconds since midnight for local
times of day).
-/

namespace TradingSim

/-- A direction of a trade, `'long'` or `'short'` in the source. -/
inductive Direction
  | long
  | short
deriving DecidableEq, Repr

/-- A resolved-trade outcome as stored on the trade record
(`'win'`, `'loss'`, `'scratch'`; `none` models the unresolved SQL NULL). -/
inductive TOutcome
  | win
  | loss
  | scratch
deriving DecidableEq, Repr

/-- One OHLCV row (a candle / bar).  `timestamp` is in minutes. -/
structure Bar where
  timestamp : ℕ
  open_ : ℚ
  high : ℚ
  low : ℚ
  close : ℚ
  volume : ℚ
deriving DecidableEq, Repr

/-- A `Trade` record, embedding the columns `determine_outcome` touches. -/
structure Trade where
  direction : Direction
  entry_price : ℚ
  stop_loss : ℚ
  take_profit : ℚ
  outcome : Option TOutcome
  exit_price : Option ℚ
  exit_timestamp : Option ℕ
  pnl_points : ℚ
  pnl_percentage : ℚ
deriving DecidableEq, Repr

/-- The dict returned by `Trade.determine_outcome`. -/
inductive OutcomeResult
  | resolved (outcome : TOutcome) (exit_price : ℚ) (exit_timestamp : ℕ) (pnl_points : ℚ)
  | pending
deriving DecidableEq, Repr

/-- Embedding of `Trade.determine_outcome` (src/models/trade.py):
scan the candles in order; for a long trade check `low ≤ stop_loss`
(loss) before `high ≥ take_profit` (win); for a short trade check
`high ≥ stop_loss` (loss) before `low ≤ take_profit` (win).  The first
breaching candle sets the exit fields and stops the scan; otherwise the
trade is left untouched and `pending` is returned. -/
def determine_outcome (t : Trade) : List Bar → Trade × OutcomeResult
  | [] => (t, .pending)
  | c :: rest =>
    match t.direction with
    | .long =>
      if c.low ≤ t.stop_loss then
        let exitP := t.stop_loss
        let pnl := exitP - t.entry_price
        ({ t with outcome := some .loss, exit_price := some exitP,
                  exit_timestamp := some c.timestamp, pnl_points := pnl,
                  pnl_percentage := pnl / (t.entry_price - t.stop_loss) * 100 },
         .resolved .loss exitP c.timestamp pnl)
      else if c.high ≥ t.take_profit then
        let exitP := t.take_profit
        let pnl := exitP - t.entry_price
        ({ t with outcome := some .win, exit_price := some exitP,
                  exit_timestamp := some c.timestamp, pnl_points := pnl,
                  pnl_percentage := pnl / (t.entry_price - t.stop_loss) * 100 },
         .resolved .win exitP c.timestamp pnl)
      else
        determine_outcome t rest
    | .short =>
      if c.high ≥ t.stop_loss then
        let exitP := t.stop_loss
        let pnl := t.entry_price - exitP
        ({ t with outcome := some .loss, exit_price := some exitP,
                  exit_timestamp := some c.timestamp, pnl_points := pnl,
                  pnl_percentage := pnl / (t.stop_loss - t.entry_price) * 100 },
         .resolved .loss exitP c.timestamp pnl)
      else if c.low ≤ t.take_profit then
        let exitP := t.take_profit
        let pnl := t.entry_price - exitP
        ({ t with outcome := some .win, exit_price := some exitP,
                  exit_timestamp := some c.timestamp, pnl_points := pnl,
                  pnl_percentage := pnl / (t.stop_loss - t.entry_price) * 100 },
         .resolved .win exitP c.timestamp pnl)
      else
        determine_outcome t rest

/-- The stop-loss breach test of `determine_outcome` for one candle. -/
def slHit (t : Trade) (c : Bar) : Bool :=
  match t.direction with
  | .long => decide (c.low ≤ t.stop_loss)
  | .short => decide (c.high ≥ t.stop_loss)

/-- The take-profit breach test of `determine_outcome` for one candle. -/
def tpHit (t : Trade) (c : Bar) : Bool :=
  match t.direction with
  | .long => decide (c.high ≥ t.take_profit)
  | .short => decide (c.low ≤ t.take_profit)

/-- A candle breaches the trade when it hits the stop or the target. -/
def breaches (t : Trade) (c : Bar) : Bool :=
  slHit t c || tpHit t c

/-! ### Config: time windows (src/config.py) -/

/-- A configured intraday time window; times are seconds since local
midnight (a Python `time` object compares like that value). -/
structure TimeWindow where
  label : String
  start : ℕ
  end_ : ℕ
deriving DecidableEq, Repr

/-- `datetime.time(h, m)` as seconds since midnight. -/
def pytime (h m : ℕ) : ℕ := h * 3600 + m * 60

/-- Embedding of `Config.TIME_WINDOWS` (src/config.py): the four
configured windows, keyed by name; `none` models a missing key. -/
def TIME_WINDOWS (key : String) : Option TimeWindow :=
  if key = "morning_1" then some ⟨"08:06 - 08:23 BST", pytime 8 6, pytime 8 23⟩
  else if key = "morning_2" then some ⟨"09:06 - 09:23 BST", pytime 9 6, pytime 9 23⟩
  else if key = "afternoon_1" then some ⟨"14:30 - 14:45 BST", pytime 14 30, pytime 14 45⟩
  else if key = "afternoon_2" then some ⟨"15:06 - 15:23 BST", pytime 15 6, pytime 15 23⟩
  else none

/-! ### DataProcessor.filter_time_window (src/data/processor.py)

The pytz conversion from a UTC timestamp to the display-timezone
time-of-day is modelled as an explicit parameter `toLocal` mapping a
bar's UTC timestamp to seconds since local midnight. -/

/-- Embedding of `DataProcessor.filter_time_window`: an unknown window
key returns the input unchanged (the source prints a message and falls
through); a known window keeps the bars whose local time-of-day lies in
`[start, end]`, both bounds inclusive. -/
def filter_time_window (toLocal : ℕ → ℕ) (df : List Bar) (window_key : String) :
    List Bar :=
  match TIME_WINDOWS window_key with
  | none => df
  | some w =>
    df.filter (fun b =>
      decide (w.start ≤ toLocal b.timestamp) && decide (toLocal b.timestamp ≤ w.end_))

/-! ### Session model (src/models/session.py) -/

/-- A practice `Session` record: the playlist of date strings, the
cursor into it, the completion flag, and the running statistics. -/
structure Session where
  playlist : List String
  current_date_index : ℕ
  is_completed : Bool
  total_trades : ℕ
  winning_trades : ℕ
  losing_trades : ℕ
  scratch_trades : ℕ
  total_pnl : ℚ
deriving DecidableEq, Repr

/-- Python float division, `none` modelling `ZeroDivisionError`. -/
def pydiv (a b : ℚ) : Option ℚ :=
  if b = 0 then none else some (a / b)

/-- Embedding of `Session.current_date`: the playlist entry at the
cursor when the cursor is in range, else `None`. -/
def Session.current_date (s : Session) : Option String :=
  if s.current_date_index < s.playlist.length then
    s.playlist.get? s.current_date_index
  else none

/-- Embedding of `Session.win_rate`: `0.0` when there are no trades,
else `(winning_trades / total_trades) * 100`. -/
def Session.win_rate (s : Session) : Option ℚ :=
  if s.total_trades = 0 then some 0
  else (pydiv (s.winning_trades : ℚ) (s.total_trades : ℚ)).map (· * 100)

/-- Embedding of `Session.average_pnl`: `0.0` when there are no trades,
else `total_pnl / total_trades`. -/
def Session.average_pnl (s : Session) : Option ℚ :=
  if s.total_trades = 0 then some 0
  else pydiv s.total_pnl (s.total_trades : ℚ)

/-- Embedding of `Session.progress_percentage`: `0.0` for an empty
playlist, else `(current_date_index / len(playlist)) * 100`. -/
def Session.progress_percentage (s : Session) : Option ℚ :=
  if s.playlist = [] then some 0
  else (pydiv (s.current_date_index : ℚ) (s.playlist.length : ℚ)).map (· * 100)

/-- Embedding of `Session.advance_to_next_date`: when the cursor is
strictly before the last playlist position, increment it and return
`True`; otherwise set `is_completed` and return `False`.  The
comparison is on Python integers, hence over `ℤ`. -/
def Session.advance_to_next_date (s : Session) : Session × Bool :=
  if (s.current_date_index : ℤ) < (s.playlist.length : ℤ) - 1 then
    ({ s with current_date_index := s.current_date_index + 1 }, true)
  else
    ({ s with is_completed := true }, false)

/-- The state part of `advance_to_next_date`, for iterating calls. -/
def advanceState (s : Session) : Session :=
  (s.advance_to_next_date).1

/-! ### DataFetcher.resample_to_timeframe (src/data/fetcher.py)

Bar timestamps are minutes since an epoch aligned to midnight.  All
supported resample widths divide a day, so pandas' day-anchored bins
coincide with flooring the timestamp to a multiple of the width. -/

/-- Embedding of the `timeframe_map` dict: the bucket width in minutes
for each supported timeframe string. -/
def timeframe_map (timeframe : String) : Option ℕ :=
  if timeframe = "1m" then some 1
  else if timeframe = "3m" then some 3
  else if timeframe = "5m" then some 5
  else if timeframe = "15m" then some 15
  else if timeframe = "1h" then some 60
  else if timeframe = "4h" then some 240
  else if timeframe = "1d" then some 1440
  else none

/-- The resample bucket of a timestamp for width `w`. -/
def bucketOf (w t : ℕ) : ℕ := t / w

/-- The aggregate row of a nonempty bucket whose rows are `x :: xs`
(in input order): `Open: first, High: max, Low: min, Close: last,
Volume: sum`; the row is labelled with the bucket's left edge. -/
def aggOf (w k : ℕ) (x : Bar) (xs : List Bar) : Bar where
  timestamp := k * w
  open_ := x.open_
  high := xs.foldl (fun acc b => max acc b.high) x.high
  low := xs.foldl (fun acc b => min acc b.low) x.low
  close := (xs.getLastD x).close
  volume := xs.foldl (fun acc b => acc + b.volume) x.volume

/-- Aggregation of one bucket's source rows.  An empty bucket
aggregates to NaN fields, which `dropna` removes — modelled by
`none`. -/
def aggBucket (w k : ℕ) (g : List Bar) : Option Bar :=
  match g with
  | [] => none
  | x :: xs => some (aggOf w k x xs)

/-- The pandas `resample(rule).agg(...).dropna()` pipeline: one bin per
bucket from the smallest to the largest source bucket; empty bins are
dropped, nonempty bins aggregate their source rows. -/
def resampleAgg (w : ℕ) (df : List Bar) : List Bar :=
  match df with
  | [] => []
  | b0 :: _ =>
    let keys := df.map (fun b => bucketOf w b.timestamp)
    let lo := keys.foldl min (bucketOf w b0.timestamp)
    let hi := keys.foldl max (bucketOf w b0.timestamp)
    (List.range' lo (hi + 1 - lo)).filterMap
      (fun k => aggBucket w k (df.filter (fun b => bucketOf w b.timestamp == k)))

/-- Embedding of `DataFetcher.resample_to_timeframe`: `None` for an
empty input or an unknown timeframe, else the aggregated bars. -/
def resample_to_timeframe (df : List Bar) (timeframe : String) : Option (List Bar) :=
  if df.isEmpty then none
  else
    match timeframe_map timeframe with
    | none => none
    | some w => some (resampleAgg w df)

/-! ### Bar store and cache orchestration (src/models/candle.py,
src/data/fetcher.py) -/

/-- A stored candle row: a bar tagged with its timeframe. -/
structure Candle where
  timestamp : ℕ
  open_ : ℚ
  high : ℚ
  low : ℚ
  close : ℚ
  volume : ℚ
  timeframe : String
deriving DecidableEq, Repr

/-- `Candle.from_series`: a DataFrame row tagged with a timeframe. -/
def toCandle (tf : String) (b : Bar) : Candle :=
  ⟨b.timestamp, b.open_, b.high, b.low, b.close, b.volume, tf⟩

/-- The bar of a stored candle (the row `get_cached_data` rebuilds). -/
def toBar (c : Candle) : Bar :=
  ⟨c.timestamp, c.open_, c.high, c.low, c.close, c.volume⟩

/-- Embedding of `Candle.exists`: is a row with this
`(timestamp, timeframe)` key in the store? -/
def existsKey (store : List Candle) (ts : ℕ) (tf : String) : Bool :=
  store.any (fun c => c.timestamp == ts && c.timeframe == tf)

/-- Embedding of `DataFetcher.cache_data`: collect the rows whose key
is not yet in the store, bulk-append them, return the new store and the
number of candles cached. -/
def cache_data (store : List Candle) (df : List Bar) (tf : String) :
    List Candle × ℕ :=
  let toIns := (df.filter (fun b => !(existsKey store b.timestamp tf))).map (toCandle tf)
  (store ++ toIns, toIns.length)

/-- Embedding of `Candle.get_range`: the stored candles of the
timeframe inside the inclusive range, ordered by timestamp. -/
def get_range (store : List Candle) (start_date end_date : ℕ) (tf : String) :
    List Candle :=
  List.insertionSort (fun a b => a.timestamp ≤ b.timestamp)
    (store.filter (fun c =>
      c.timeframe == tf && decide (start_date ≤ c.timestamp) &&
        decide (c.timestamp ≤ end_date)))

/-- Embedding of `DataFetcher.get_cached_data`: `None` when the range
query is empty, else the rows as a DataFrame. -/
def get_cached_data (store : List Candle) (start_date end_date : ℕ) (tf : String) :
    Option (List Bar) :=
  let candles := get_range store start_date end_date tf
  if candles.isEmpty then none else some (candles.map toBar)

/-- Embedding of `DataFetcher.fetch_and_cache`.  The external provider
is the parameter `provider` (interval string to fetched bars, `none`
for an error or empty result); `daysAgo` is `(now - start_date).days`.
Returns the result, the new store, and the number of provider calls
made during this invocation. -/
def fetch_and_cache (provider : String → Option (List Bar)) (daysAgo : ℤ)
    (store : List Candle) (start_date end_date : ℕ) (timeframe : String)
    (force_refresh : Bool) : Option (List Bar) × List Candle × ℕ :=
  let cached : Option (List Bar) :=
    if force_refresh then none
    else
      match get_cached_data store start_date end_date timeframe with
      | none => none
      | some df => if df.isEmpty then none else some df
  match cached with
  | some df => (some df, store, 0)
  | none =>
    let base_interval :=
      if daysAgo ≤ 7 then "1m" else if daysAgo ≤ 60 then "5m" else "1h"
    match provider base_interval with
    | none => (none, store, 1)
    | some df_base =>
      if df_base.isEmpty then (none, store, 1)
      else
        let store1 := (cache_data store df_base base_interval).1
        if timeframe = base_interval then (some df_base, store1, 1)
        else if timeframe = "3m" ∧ base_interval = "5m" then
          let store2 := (cache_data store1 df_base "3m").1
          (some df_base, store2, 1)
        else
          match resample_to_timeframe df_base timeframe with
          | none => (none, store1, 1)
          | some df_r =>
            let store2 := (cache_data store1 df_r timeframe).1
            (some df_r, store2, 1)

/-! ### Derived notions used by the theorems -/

/-- The signed P&L the code assigns for an exit at `exitP`:
`exit − entry` for a long trade, `entry − exit` for a short one. -/
def pnlOf (t : Trade) (exitP : ℚ) : ℚ :=
  match t.direction with
  | .long => exitP - t.entry_price
  | .short => t.entry_price - exitP

/-- The denominator the code divides by for the P&L percentage:
`entry − stop` for a long trade, `stop − entry` for a short one. -/
def riskDen (t : Trade) : ℚ :=
  match t.direction with
  | .long => t.entry_price - t.stop_loss
  | .short => t.stop_loss - t.entry_price

/-- No two stored candles share a `(timestamp, timeframe)` key. -/
def NoDupKeys (store : List Candle) : Prop :=
  store.Pairwise (fun a b => ¬(a.timestamp = b.timestamp ∧ a.timeframe = b.timeframe))

/-! ### Concrete instances used by the witnesses -/

/-- UTC minutes to display-local (BST, UTC+1) seconds since midnight. -/
def tlLondon : ℕ → ℕ := fun ts => (ts * 60 + 3600) % 86400

/-- A bar at 08:05 local time (07:05 UTC). -/
def bar0805 : Bar := ⟨7 * 60 + 5, 1, 1, 1, 1, 1⟩

/-- A bar at 08:10 local time. -/
def bar0810 : Bar := ⟨7 * 60 + 10, 2, 2, 2, 2, 2⟩

/-- A bar at 08:24 local time. -/
def bar0824 : Bar := ⟨7 * 60 + 24, 3, 3, 3, 3, 3⟩

/-- A three-bar frame around the `morning_1` window boundaries. -/
def dfWindow : List Bar := [bar0805, bar0810, bar0824]

/-- A bar at 01:00 local time, outside every configured window. -/
def barNight : Bar := ⟨0, 1, 1, 1, 1, 1⟩

/-- The long trade of the specification's outcome example:
entry 100, stop 82, target 154. -/
def tradeEx : Trade := ⟨.long, 100, 82, 154, none, none, none, 0, 0⟩

/-- First example bar: breaches neither level. -/
def barA : Bar := ⟨1, 100, 105, 99, 104, 10⟩

/-- Second example bar: breaches neither level. -/
def barB : Bar := ⟨2, 104, 110, 100, 108, 10⟩

/-- Third example bar: low 81 touches the stop and high 155 touches the
target in the same bar. -/
def barC : Bar := ⟨3, 108, 155, 81, 90, 10⟩

/-- A session with 2 wins, 1 loss and 108 points over 3 trades. -/
def sessionEx : Session := ⟨["2024-11-04", "2024-11-07"], 0, false, 3, 2, 1, 0, 108⟩

/-- A two-date session at the start of its playlist. -/
def sessionTwo : Session := ⟨["2024-11-04", "2024-11-07"], 0, false, 0, 0, 0, 0, 0⟩

/-- Minute bars 0,1,2 then a gap, then minute 6. -/
def dfResample : List Bar :=
  [⟨0, 1, 5, 0, 2, 7⟩, ⟨1, 2, 6, 1, 3, 8⟩, ⟨2, 3, 7, 2, 4, 9⟩, ⟨6, 10, 11, 9, 10, 1⟩]

/-- A store already holding one 3m candle at timestamp 5. -/
def store3m : List Candle := [⟨5, 1, 2, 0, 1, 3, "3m"⟩]

/-- A provider that always fails. -/
def providerNone : String → Option (List Bar) := fun _ => none

/-- A provider with one 5-minute bar and nothing else. -/
def provider5m : String → Option (List Bar) :=
  fun i => if i = "5m" then some [⟨0, 1, 2, 0, 1, 5⟩] else none

/-- Two distinct-timestamp bars to cache. -/
def dfCache : List Bar := [⟨0, 1, 1, 1, 1, 1⟩, ⟨1, 2, 2, 2, 2, 2⟩]

/-! ## Theorems -/

/-- C10: the session statistics accessors are total — `win_rate` and
`average_pnl` return exactly `0.0` (never a division-by-zero error)
when `total_trades = 0`, `progress_percentage` returns `0.0` for an
empty playlist, and for `total_trades > 0`, `win_rate` equals
`winning_trades / total_trades * 100` and `average_pnl` equals
`total_pnl / total_trades`. -/
theorem session_stats_total (s : Session) :
    (s.win_rate).isSome = true ∧ (s.average_pnl).isSome = true ∧
    (s.progress_percentage).isSome = true ∧
    (s.total_trades = 0 → s.win_rate = some 0 ∧ s.average_pnl = some 0) ∧
    (s.playlist = [] → s.progress_percentage = some 0) ∧
    (0 < s.total_trades →
      s.win_rate = some ((s.winning_trades : ℚ) / (s.total_trades : ℚ) * 100) ∧
      s.average_pnl = some (s.total_pnl / (s.total_trades : ℚ))) := by
  unfold Session.win_rate Session.average_pnl Session.progress_percentage pydiv
  by_cases ht : s.total_trades = 0 <;> by_cases hp : s.playlist = []
  all_goals
    have hcast : ((s.total_trades : ℚ) = 0) ↔ s.total_trades = 0 := by
      exact_mod_cast Iff.rfl
    have hlen : ((s.playlist.length : ℚ) = 0) ↔ s.playlist = [] := by
      rw [show ((s.playlist.length : ℚ) = 0) ↔ s.playlist.length = 0 from by
        exact_mod_cast Iff.rfl]
      exact List.length_eq_zero
  all_goals simp [ht, hp, hcast, hlen, Nat.pos_of_ne_zero]

/-- Witness for C10 at the specification's statistics example. -/
theorem session_stats_total_witness :
    sessionEx.win_rate = some (200 / 3) ∧ sessionEx.average_pnl = some 36 := by
  have h := (session_stats_total sessionEx).2.2.2.2.2 (by decide)
  refine ⟨h.1.trans ?_, h.2.trans ?_⟩ <;> norm_num [sessionEx]

/-- `advance_to_next_date` never touches the playlist. -/
theorem advanceState_playlist (s : Session) : (advanceState s).playlist = s.playlist := by
  unfold advanceState Session.advance_to_next_date
  split <;> rfl

/-- `advance_to_next_date` keeps the cursor strictly below the playlist
length. -/
theorem advanceState_lt (s : Session) (h : s.current_date_index < s.playlist.length) :
    (advanceState s).current_date_index < s.playlist.length := by
  unfold advanceState Session.advance_to_next_date
  split
  · rename_i hlt
    simp only
    omega
  · simpa using h

/-- Any number of advances keeps the playlist and the cursor bound. -/
theorem iterate_advance_inv (s : Session) (h : s.current_date_index < s.playlist.length)
    (n : ℕ) :
    (advanceState^[n] s).playlist = s.playlist ∧
      (advanceState^[n] s).current_date_index < s.playlist.length := by
  induction n with
  | zero => exact ⟨rfl, h⟩
  | succ n ih =>
    rw [Function.iterate_succ_apply']
    refine ⟨by rw [advanceState_playlist, ih.1], ?_⟩
    have h2 := advanceState_lt (advanceState^[n] s) (by rw [ih.1]; exact ih.2)
    rwa [ih.1] at h2

/-- One call of `advance_to_next_date`, characterized. -/
theorem advance_spec (t : Session) (hne : t.playlist ≠ [])
    (hidx : t.current_date_index < t.playlist.length) :
    ((t.advance_to_next_date).2 = true ↔
       t.current_date_index ≠ t.playlist.length - 1) ∧
    ((t.advance_to_next_date).2 = true →
       (t.advance_to_next_date).1.current_date_index = t.current_date_index + 1) ∧
    ((t.advance_to_next_date).2 = false →
       (t.advance_to_next_date).1.current_date_index = t.current_date_index ∧
         (t.advance_to_next_date).1.is_completed = true) := by
  have hlen : 0 < t.playlist.length := List.length_pos.mpr hne
  unfold Session.advance_to_next_date
  split
  · rename_i hlt
    refine ⟨?_, fun _ => rfl, fun hf => by simp at hf⟩
    have h : t.current_date_index ≠ t.playlist.length - 1 := by omega
    simpa using h
  · rename_i hge
    refine ⟨?_, fun ht => by simp at ht, fun _ => ⟨rfl, rfl⟩⟩
    have h : t.current_date_index = t.playlist.length - 1 := by omega
    simpa using h

/-- C9: for a session created on a non-empty playlist with cursor 0,
any number of `advance_to_next_date` calls keeps the cursor inside
`[0, length − 1]` (so `current_date` is never `None`); a further call
returns `True` and increments the cursor exactly when the cursor is not
on the last entry, and on the last entry it leaves the cursor
unchanged, sets `is_completed`, and returns `False`. -/
theorem session_cursor_invariant (s : Session) (hne : s.playlist ≠ [])
    (h0 : s.current_date_index = 0) (n : ℕ) (sn : Session)
    (hsn : sn = advanceState^[n] s) :
    sn.current_date_index ≤ s.playlist.length - 1 ∧
    (sn.current_date).isSome = true ∧
    ((sn.advance_to_next_date).2 = true ↔
       sn.current_date_index ≠ s.playlist.length - 1) ∧
    ((sn.advance_to_next_date).2 = true →
       (sn.advance_to_next_date).1.current_date_index = sn.current_date_index + 1) ∧
    ((sn.advance_to_next_date).2 = false →
       (sn.advance_to_next_date).1.current_date_index = sn.current_date_index ∧
         (sn.advance_to_next_date).1.is_completed = true) := by
  have hlen : 0 < s.playlist.length := List.length_pos.mpr hne
  obtain ⟨hpl, hlt⟩ := iterate_advance_inv s (by omega) n
  rw [← hsn] at hpl hlt
  have hspec := advance_spec sn (by rw [hpl]; exact hne) (by rw [hpl]; exact hlt)
  rw [hpl] at hspec
  refine ⟨by omega, ?_, hspec.1, hspec.2.1, hspec.2.2⟩
  unfold Session.current_date
  rw [hpl, if_pos hlt]
  simp [List.getElem?_eq_getElem, hlt]

/-- Witness for C9 on a fresh two-date session. -/
theorem session_cursor_invariant_witness :
    (sessionTwo.advance_to_next_date).2 = true := by
  have h := session_cursor_invariant sessionTwo (by decide) rfl 0 sessionTwo rfl
  exact h.2.2.1.mpr (by decide)

/-- C6: for a configured window, `filter_time_window` keeps exactly the
bars whose display-local time-of-day lies in `[start, end]`, both
bounds inclusive. -/
theorem filter_time_window_mem (toLocal : ℕ → ℕ) (df : List Bar) (key : String)
    (w : TimeWindow) (hw : TIME_WINDOWS key = some w) (b : Bar) :
    b ∈ filter_time_window toLocal df key ↔
      b ∈ df ∧ w.start ≤ toLocal b.timestamp ∧ toLocal b.timestamp ≤ w.end_ := by
  unfold filter_time_window
  rw [hw]
  simp [List.mem_filter]

/-- Witness for C6 on the `morning_1` window: the 08:10 bar is kept,
the 08:05 and 08:24 bars are dropped. -/
theorem filter_time_window_mem_witness :
    bar0810 ∈ filter_time_window tlLondon dfWindow "morning_1" ∧
    bar0805 ∉ filter_time_window tlLondon dfWindow "morning_1" ∧
    bar0824 ∉ filter_time_window tlLondon dfWindow "morning_1" := by
  have h := filter_time_window_mem tlLondon dfWindow "morning_1"
    ⟨"08:06 - 08:23 BST", pytime 8 6, pytime 8 23⟩ (by decide)
  refine ⟨(h bar0810).mpr (by decide), ?_, ?_⟩
  · intro hmem
    exact absurd ((h bar0805).mp hmem).2.1 (by decide)
  · intro hmem
    exact absurd ((h bar0824).mp hmem).2.2 (by decide)

/-- C3 is falsified by the code: an unknown window key does not produce
an error — the unfiltered input comes back unchanged as the result. -/
theorem filter_time_window_unknown_counterexample :
    filter_time_window tlLondon [barNight] "late_night" = [barNight] := by
  decide

/-- C3 (amended): for a window key not in the configured set,
`filter_time_window` returns the unfiltered input unchanged to the
caller (a silent fallback; the only report is a log line). -/
theorem filter_time_window_unknown (toLocal : ℕ → ℕ) (df : List Bar) (key : String)
    (h : TIME_WINDOWS key = none) :
    filter_time_window toLocal df key = df := by
  unfold filter_time_window
  rw [h]

/-- Witness for the amended C3 at a concrete unknown key. -/
theorem filter_time_window_unknown_witness :
    filter_time_window tlLondon dfWindow "evening_9" = dfWindow :=
  filter_time_window_unknown tlLondon dfWindow "evening_9" (by decide)

/-- A candle that hits neither level is skipped by the scan. -/
theorem determine_outcome_skip (t : Trade) (c : Bar) (rest : List Bar)
    (hsl : slHit t c = false) (htp : tpHit t c = false) :
    determine_outcome t (c :: rest) = determine_outcome t rest := by
  obtain ⟨dir, ep, sl, tp, oc, xp, xt, pp, pc⟩ := t
  cases dir <;> simp_all [determine_outcome, slHit, tpHit] <;>
    rw [if_neg (not_le.mpr hsl), if_neg (not_le.mpr htp)]

/-- A candle that hits the stop resolves the trade as a loss at the
stop level, whatever the take-profit test would have said. -/
theorem determine_outcome_sl (t : Trade) (c : Bar) (rest : List Bar)
    (hsl : slHit t c = true) :
    determine_outcome t (c :: rest) =
      ({ t with outcome := some .loss, exit_price := some t.stop_loss,
                exit_timestamp := some c.timestamp,
                pnl_points := pnlOf t t.stop_loss,
                pnl_percentage := pnlOf t t.stop_loss / riskDen t * 100 },
       .resolved .loss t.stop_loss c.timestamp (pnlOf t t.stop_loss)) := by
  obtain ⟨dir, ep, sl, tp, oc, xp, xt, pp, pc⟩ := t
  cases dir <;> simp_all [determine_outcome, slHit, pnlOf, riskDen]

/-- A candle that misses the stop but hits the target resolves the
trade as a win at the target level. -/
theorem determine_outcome_tp (t : Trade) (c : Bar) (rest : List Bar)
    (hsl : slHit t c = false) (htp : tpHit t c = true) :
    determine_outcome t (c :: rest) =
      ({ t with outcome := some .win, exit_price := some t.take_profit,
                exit_timestamp := some c.timestamp,
                pnl_points := pnlOf t t.take_profit,
                pnl_percentage := pnlOf t t.take_profit / riskDen t * 100 },
       .resolved .win t.take_profit c.timestamp (pnlOf t t.take_profit)) := by
  obtain ⟨dir, ep, sl, tp, oc, xp, xt, pp, pc⟩ := t
  cases dir <;> simp_all [determine_outcome, slHit, tpHit, pnlOf, riskDen]

/-- For a well-formed trade the entry-to-stop distance is the
denominator the code divides by. -/
theorem abs_riskDen (t : Trade) (h : 0 ≤ riskDen t) :
    |t.entry_price - t.stop_loss| = riskDen t := by
  obtain ⟨dir, ep, sl, tp, oc, xp, xt, pp, pc⟩ := t
  cases dir
  · simp only [riskDen] at h ⊢
    exact abs_of_nonneg h
  · simp only [riskDen] at h ⊢
    rw [abs_sub_comm]
    exact abs_of_nonneg h

/-- C5: with no candle in the sequence breaching either level, the
trade record is returned unchanged (no exit field set) together with a
`pending` result, so resolution can be re-invoked later. -/
theorem pending_persistence (t : Trade) (candles : List Bar)
    (h : ∀ c ∈ candles, breaches t c = false) :
    determine_outcome t candles = (t, .pending) := by
  induction candles with
  | nil =>
    obtain ⟨dir, ep, sl, tp, oc, xp, xt, pp, pc⟩ := t
    cases dir <;> rfl
  | cons c rest ih =>
    have hc := h c (List.mem_cons_self c rest)
    simp only [breaches, Bool.or_eq_false_iff] at hc
    rw [determine_outcome_skip t c rest hc.1 hc.2]
    exact ih fun x hx => h x (List.mem_cons_of_mem c hx)

/-- Witness for C5: the example trade stays pending over the first two
example bars. -/
theorem pending_persistence_witness :
    determine_outcome tradeEx [barA, barB] = (tradeEx, .pending) :=
  pending_persistence tradeEx [barA, barB] (by decide)

/-- C1: the scan resolves at the first breaching candle, testing the
stop before the target within that candle; the exit price is exactly
the breached level, the exit timestamp is that candle's, the P&L in
points is the direction-adjusted signed exit-minus-entry difference,
and the P&L percentage is the points divided by the entry-to-stop
distance times 100. -/
theorem first_touch_resolution (t : Trade) (pre post : List Bar) (c : Bar)
    (hgeom : 0 ≤ riskDen t)
    (hpre : ∀ b ∈ pre, breaches t b = false)
    (hc : breaches t c = true) :
    ∃ t' r, determine_outcome t (pre ++ c :: post) = (t', r) ∧
      t'.exit_timestamp = some c.timestamp ∧
      (slHit t c = true →
        t'.outcome = some .loss ∧ t'.exit_price = some t.stop_loss) ∧
      (slHit t c = false →
        t'.outcome = some .win ∧ t'.exit_price = some t.take_profit) ∧
      ∀ ep, t'.exit_price = some ep →
        t'.pnl_points = pnlOf t ep ∧
        t'.pnl_percentage = t'.pnl_points / |t.entry_price - t.stop_loss| * 100 := by
  induction pre with
  | nil =>
    rw [List.nil_append]
    cases hsl : slHit t c
    · have htp : tpHit t c = true := by
        simpa [breaches, hsl] using hc
      rw [determine_outcome_tp t c post hsl htp]
      refine ⟨_, _, rfl, rfl, fun h => absurd h (by decide),
        fun _ => ⟨rfl, rfl⟩, ?_⟩
      intro ep hep
      have hepe : t.take_profit = ep := by simpa using hep
      subst hepe
      exact ⟨rfl, by rw [abs_riskDen t hgeom]⟩
    · rw [determine_outcome_sl t c post hsl]
      refine ⟨_, _, rfl, rfl, fun _ => ⟨rfl, rfl⟩,
        fun h => absurd h (by decide), ?_⟩
      intro ep hep
      have hepe : t.stop_loss = ep := by simpa using hep
      subst hepe
      exact ⟨rfl, by rw [abs_riskDen t hgeom]⟩
  | cons b pre ih =>
    have hb := hpre b (List.mem_cons_self b pre)
    simp only [breaches, Bool.or_eq_false_iff] at hb
    rw [List.cons_append, determine_outcome_skip t b _ hb.1 hb.2]
    exact ih fun x hx => hpre x (List.mem_cons_of_mem b hx)

/-- Witness for C1 at the specification's outcome example: both levels
are touched inside the third bar and the stop wins the tie-break, so
the trade is a loss exiting at 82 with −18 points and −100 percent. -/
theorem first_touch_resolution_witness :
    ∃ t' r, determine_outcome tradeEx [barA, barB, barC] = (t', r) ∧
      t'.outcome = some .loss ∧ t'.exit_price = some 82 ∧
      t'.exit_timestamp = some 3 ∧ t'.pnl_points = -18 ∧
      t'.pnl_percentage = -100 := by
  obtain ⟨t', r, heq, hts, hsl, htp, hpnl⟩ :=
    first_touch_resolution tradeEx [barA, barB] [] barC
      (by norm_num [riskDen, tradeEx]) (by decide) (by decide)
  obtain ⟨hoc, hxp⟩ := hsl (by decide)
  obtain ⟨hpts, hpct⟩ := hpnl tradeEx.stop_loss hxp
  refine ⟨t', r, heq, hoc, hxp, hts, ?_, ?_⟩
  · rw [hpts]; norm_num [pnlOf, tradeEx]
  · rw [hpct, hpts]
    have habs : |(100 : ℚ) - 82| = 18 := by
      rw [abs_of_nonneg (by norm_num)]
      norm_num
    norm_num [pnlOf, tradeEx, habs]

/-- Key lookup distributes over store concatenation. -/
theorem existsKey_append (l1 l2 : List Candle) (ts : ℕ) (tf : String) :
    existsKey (l1 ++ l2) ts tf = (existsKey l1 ts tf || existsKey l2 ts tf) := by
  unfold existsKey
  exact List.any_append

/-- A key is absent exactly when no stored candle carries it. -/
theorem existsKey_eq_false_iff (store : List Candle) (ts : ℕ) (tf : String) :
    existsKey store ts tf = false ↔
      ∀ c ∈ store, ¬(c.timestamp = ts ∧ c.timeframe = tf) := by
  simp [existsKey, List.any_eq_false]

/-- After `cache_data`, every row of the cached frame has its key in
the store. -/
theorem existsKey_cache_data_self (store : List Candle) (df : List Bar) (tf : String)
    (b : Bar) (hb : b ∈ df) :
    existsKey (cache_data store df tf).1 b.timestamp tf = true := by
  unfold cache_data
  simp only
  rw [existsKey_append]
  by_cases hex : existsKey store b.timestamp tf = true
  · simp [hex]
  · have hex' : existsKey store b.timestamp tf = false := by simpa using hex
    have hmem : toCandle tf b ∈
        (df.filter (fun x => !(existsKey store x.timestamp tf))).map (toCandle tf) :=
      List.mem_map_of_mem _ (List.mem_filter.mpr ⟨hb, by simp [hex']⟩)
    have h2 : existsKey
        ((df.filter (fun x => !(existsKey store x.timestamp tf))).map (toCandle tf))
        b.timestamp tf = true := by
      unfold existsKey
      rw [List.any_eq_true]
      exact ⟨toCandle tf b, hmem, by simp [toCandle]⟩
    simp [h2]

/-- `cache_data` over a frame whose keys are all present changes
nothing and caches zero candles. -/
theorem cache_data_all_exist (store : List Candle) (df : List Bar) (tf : String)
    (h : ∀ b ∈ df, existsKey store b.timestamp tf = true) :
    cache_data store df tf = (store, 0) := by
  unfold cache_data
  have hfe : df.filter (fun b => !(existsKey store b.timestamp tf)) = [] := by
    rw [List.filter_eq_nil_iff]
    intro b hb
    simp [h b hb]
  simp [hfe]

/-- C8: bar insertion is idempotent by `(timestamp, timeframe)` key —
`cache_data` inserts only rows whose key is absent, a second identical
call inserts zero candles and leaves the store unchanged, and a store
without duplicate keys stays without duplicate keys. -/
theorem cache_insert_idempotent (store : List Candle) (df : List Bar) (tf : String)
    (hdf : df.Pairwise (fun a b => a.timestamp ≠ b.timestamp))
    (hstore : NoDupKeys store) :
    (∀ c ∈ (cache_data store df tf).1,
        c ∈ store ∨ ∃ b ∈ df, existsKey store b.timestamp tf = false ∧
          c = toCandle tf b) ∧
    NoDupKeys (cache_data store df tf).1 ∧
    cache_data (cache_data store df tf).1 df tf = ((cache_data store df tf).1, 0) := by
  refine ⟨?_, ?_, ?_⟩
  · intro c hc
    unfold cache_data at hc
    simp only at hc
    rcases List.mem_append.mp hc with h | h
    · exact Or.inl h
    · right
      obtain ⟨b, hbf, rfl⟩ := List.mem_map.mp h
      obtain ⟨hbdf, hbex⟩ := List.mem_filter.mp hbf
      exact ⟨b, hbdf, by simpa using hbex, rfl⟩
  · unfold NoDupKeys cache_data
    simp only
    rw [List.pairwise_append]
    refine ⟨hstore, ?_, ?_⟩
    · rw [List.pairwise_map]
      have hpf : (df.filter
          (fun x => !(existsKey store x.timestamp tf))).Pairwise
          (fun a b => a.timestamp ≠ b.timestamp) :=
        hdf.sublist (List.filter_sublist df)
      refine hpf.imp ?_
      intro a b hab
      simp only [toCandle]
      exact fun hcon => hab hcon.1
    · intro a ha b hb
      obtain ⟨x, hxf, rfl⟩ := List.mem_map.mp hb
      obtain ⟨hxdf, hxex⟩ := List.mem_filter.mp hxf
      have hfalse : existsKey store x.timestamp tf = false := by simpa using hxex
      have hno := (existsKey_eq_false_iff store x.timestamp tf).mp hfalse a ha
      intro hcon
      exact hno ⟨hcon.1, hcon.2⟩
  · exact cache_data_all_exist _ df tf
      (fun b hb => existsKey_cache_data_self store df tf b hb)

/-- Witness for C8 on two fresh bars: the second call is a no-op. -/
theorem cache_insert_idempotent_witness :
    cache_data (cache_data [] dfCache "1m").1 dfCache "1m" =
      ((cache_data [] dfCache "1m").1, 0) :=
  (cache_insert_idempotent [] dfCache "1m" (by decide) List.Pairwise.nil).2.2

/-- C4: with `force_refresh` off and the store holding at least one bar
of the requested range and timeframe, `fetch_and_cache` answers from
the cache: it returns the stored bars, leaves the store unchanged and
makes zero provider calls. -/
theorem cache_first (provider : String → Option (List Bar)) (daysAgo : ℤ)
    (store : List Candle) (start_date end_date : ℕ) (tf : String)
    (h : ∃ c ∈ store, c.timeframe = tf ∧ start_date ≤ c.timestamp ∧
      c.timestamp ≤ end_date) :
    ∃ df, get_cached_data store start_date end_date tf = some df ∧
      fetch_and_cache provider daysAgo store start_date end_date tf false =
        (some df, store, 0) := by
  obtain ⟨c, hc, htf, hs, he⟩ := h
  have hmem : c ∈ get_range store start_date end_date tf := by
    unfold get_range
    rw [(List.perm_insertionSort _ _).mem_iff]
    exact List.mem_filter.mpr ⟨hc, by simp [htf, hs, he]⟩
  have hne : (get_range store start_date end_date tf).isEmpty = false := by
    cases hr : get_range store start_date end_date tf
    · rw [hr] at hmem
      simp at hmem
    · rfl
  have hgcd : get_cached_data store start_date end_date tf =
      some ((get_range store start_date end_date tf).map toBar) := by
    unfold get_cached_data
    simp [hne]
  have hne2 : ((get_range store start_date end_date tf).map toBar).isEmpty = false := by
    cases hr : get_range store start_date end_date tf
    · rw [hr] at hmem
      simp at hmem
    · rfl
  refine ⟨_, hgcd, ?_⟩
  unfold fetch_and_cache
  rw [hgcd]
  simp [hne2]

/-- Witness for C4: a one-candle 3m store answers without the provider. -/
theorem cache_first_witness :
    ∃ df, get_cached_data store3m 0 10 "3m" = some df ∧
      fetch_and_cache providerNone 100 store3m 0 10 "3m" false =
        (some df, store3m, 0) :=
  cache_first providerNone 100 store3m 0 10 "3m"
    ⟨⟨5, 1, 2, 0, 1, 3, "3m"⟩, by decide, rfl, by decide, by decide⟩

/-- C7: when the orchestrator picks the 5-minute base granularity for a
3-minute request, it does not resample — the fetched 5-minute bars are
cached under both the `"5m"` and the `"3m"` tag and returned verbatim
as the result of the 3-minute request. -/
theorem substitute_5m_as_3m (provider : String → Option (List Bar)) (daysAgo : ℤ)
    (store : List Candle) (start_date end_date : ℕ) (force_refresh : Bool)
    (hmiss : force_refresh = false →
      get_cached_data store start_date end_date "3m" = none)
    (h7 : 7 < daysAgo) (h60 : daysAgo ≤ 60)
    (df_base : List Bar) (hprov : provider "5m" = some df_base)
    (hne : df_base ≠ []) :
    fetch_and_cache provider daysAgo store start_date end_date "3m" force_refresh =
      (some df_base,
       (cache_data (cache_data store df_base "5m").1 df_base "3m").1, 1) ∧
    ∀ b ∈ df_base,
      existsKey (cache_data (cache_data store df_base "5m").1 df_base "3m").1
        b.timestamp "3m" = true := by
  constructor
  · unfold fetch_and_cache
    have hbase : (if daysAgo ≤ 7 then "1m" else if daysAgo ≤ 60 then "5m" else "1h") =
        "5m" := by
      rw [if_neg (by omega), if_pos h60]
    have hnei : df_base.isEmpty = false := by
      cases df_base
      · exact absurd rfl hne
      · rfl
    cases force_refresh
    · rw [hmiss rfl]
      simp only [Bool.false_eq_true, if_false]
      rw [hbase, hprov]
      simp [hnei]
    · simp only [if_true]
      rw [hbase, hprov]
      simp [hnei]
  · intro b hb
    exact existsKey_cache_data_self _ _ _ _ hb

/-- Witness for C7 with a one-bar 5-minute provider result. -/
theorem substitute_5m_as_3m_witness :
    fetch_and_cache provider5m 30 [] 0 10 "3m" false =
      (some [⟨0, 1, 2, 0, 1, 5⟩],
       [⟨0, 1, 2, 0, 1, 5, "5m"⟩, ⟨0, 1, 2, 0, 1, 5, "3m"⟩], 1) := by
  have h := substitute_5m_as_3m provider5m 30 [] 0 10 false (fun _ => rfl)
    (by decide) (by decide) [⟨0, 1, 2, 0, 1, 5⟩] (by decide) (by decide)
  rw [h.1]
  decide

/-- Every supported timeframe has a positive bucket width. -/
theorem timeframe_map_pos (tf : String) (w : ℕ) (h : timeframe_map tf = some w) :
    0 < w := by
  unfold timeframe_map at h
  split_ifs at h <;> simp_all <;> omega

/-- A left fold by `min` is below its initial value. -/
theorem foldl_min_le_init {α : Type*} [LinearOrder α] (l : List α) (a : α) :
    l.foldl min a ≤ a := by
  induction l generalizing a with
  | nil => exact le_refl a
  | cons x xs ih => exact le_trans (ih (min a x)) (min_le_left a x)

/-- A left fold by `min` is below every list element. -/
theorem foldl_min_le_mem {α : Type*} [LinearOrder α] {l : List α} {x : α} (a : α)
    (hx : x ∈ l) : l.foldl min a ≤ x := by
  induction l generalizing a with
  | nil => simp at hx
  | cons y ys ih =>
    rcases List.mem_cons.mp hx with rfl | h
    · exact le_trans (foldl_min_le_init ys (min a x)) (min_le_right a x)
    · exact ih (min a y) h

/-- A left fold by `max` is above its initial value. -/
theorem le_foldl_max_init {α : Type*} [LinearOrder α] (l : List α) (a : α) :
    a ≤ l.foldl max a := by
  induction l generalizing a with
  | nil => exact le_refl a
  | cons x xs ih => exact le_trans (le_max_left a x) (ih (max a x))

/-- A left fold by `max` is above every list element. -/
theorem le_foldl_max_mem {α : Type*} [LinearOrder α] {l : List α} {x : α} (a : α)
    (hx : x ∈ l) : x ≤ l.foldl max a := by
  induction l generalizing a with
  | nil => simp at hx
  | cons y ys ih =>
    rcases List.mem_cons.mp hx with rfl | h
    · exact le_trans (le_max_right a x) (le_foldl_max_init ys (max a x))
    · exact ih (max a y) h

/-- A left fold by `max` is the initial value or some list element. -/
theorem foldl_max_choice {α : Type*} [LinearOrder α] (l : List α) (a : α) :
    l.foldl max a = a ∨ l.foldl max a ∈ l := by
  induction l generalizing a with
  | nil => exact Or.inl rfl
  | cons x xs ih =>
    rcases ih (max a x) with h | h
    · by_cases hax : a ≤ x
      · exact Or.inr (by rw [List.foldl_cons, h, max_eq_right hax]; exact List.mem_cons_self x xs)
      · exact Or.inl (by rw [List.foldl_cons, h, max_eq_left (le_of_not_le hax)])
    · exact Or.inr (List.mem_cons_of_mem x h)

/-- A left fold by `min` is the initial value or some list element. -/
theorem foldl_min_choice {α : Type*} [LinearOrder α] (l : List α) (a : α) :
    l.foldl min a = a ∨ l.foldl min a ∈ l := by
  induction l generalizing a with
  | nil => exact Or.inl rfl
  | cons x xs ih =>
    rcases ih (min a x) with h | h
    · by_cases hax : x ≤ a
      · exact Or.inr (by rw [List.foldl_cons, h, min_eq_right hax]; exact List.mem_cons_self x xs)
      · exact Or.inl (by rw [List.foldl_cons, h, min_eq_left (le_of_not_le hax)])
    · exact Or.inr (List.mem_cons_of_mem x h)

/-- A left fold by addition accumulates the list sum. -/
theorem foldl_add_eq (l : List ℚ) (a : ℚ) : l.foldl (· + ·) a = a + l.sum := by
  induction l generalizing a with
  | nil => simp
  | cons x xs ih => rw [List.foldl_cons, ih, List.sum_cons, add_assoc]

/-- `getLastD` picks an element of the defaulted list. -/
theorem getLastD_mem {α : Type*} (x : α) (xs : List α) : xs.getLastD x ∈ x :: xs := by
  induction xs generalizing x with
  | nil => exact List.mem_cons_self x []
  | cons y ys ih =>
    rw [List.getLastD_cons]
    exact List.mem_cons_of_mem x (ih y)

/-- In a strictly increasing bar list, `getLastD` dominates every
element's timestamp. -/
theorem getLastD_timestamp_ge (x : Bar) (xs : List Bar)
    (hp : (x :: xs).Pairwise (fun a b => a.timestamp < b.timestamp)) :
    ∀ y ∈ x :: xs, y.timestamp ≤ (xs.getLastD x).timestamp := by
  induction xs generalizing x with
  | nil =>
    intro y hy
    rcases List.mem_cons.mp hy with rfl | h
    · exact le_refl _
    · simp at h
  | cons z zs ih =>
    intro y hy
    rw [List.getLastD_cons]
    have htail : (z :: zs).Pairwise (fun a b => a.timestamp < b.timestamp) :=
      List.Pairwise.of_cons hp
    rcases List.mem_cons.mp hy with rfl | h
    · have hlast := getLastD_mem z zs
      exact le_of_lt (List.rel_of_pairwise_cons hp hlast)
    · exact ih z htail y h

/-- A bar is emitted by the resample pipeline exactly when it is the
aggregation of some (necessarily nonempty) bucket of the source. -/
theorem mem_resampleAgg_iff (w : ℕ) (df : List Bar) (b : Bar) :
    b ∈ resampleAgg w df ↔
      ∃ k, aggBucket w k (df.filter (fun s => bucketOf w s.timestamp == k)) = some b := by
  cases df with
  | nil =>
    simp only [resampleAgg, List.not_mem_nil, false_iff, not_exists]
    intro k hk
    simp [aggBucket] at hk
  | cons b0 rest =>
    rw [show resampleAgg w (b0 :: rest) =
      (List.range'
        (((b0 :: rest).map (fun x => bucketOf w x.timestamp)).foldl min
          (bucketOf w b0.timestamp))
        ((((b0 :: rest).map (fun x => bucketOf w x.timestamp)).foldl max
          (bucketOf w b0.timestamp)) + 1 -
         (((b0 :: rest).map (fun x => bucketOf w x.timestamp)).foldl min
          (bucketOf w b0.timestamp)))).filterMap
        (fun k => aggBucket w k
          ((b0 :: rest).filter (fun x => bucketOf w x.timestamp == k))) from rfl]
    rw [List.mem_filterMap]
    constructor
    · rintro ⟨k, _, hagg⟩
      exact ⟨k, hagg⟩
    · rintro ⟨k, hagg⟩
      refine ⟨k, ?_, hagg⟩
      -- the bucket is nonempty, so its key lies between the fold bounds
      have hgne : ∃ x, x ∈ (b0 :: rest).filter (fun s => bucketOf w s.timestamp == k) := by
        cases hgc : (b0 :: rest).filter (fun s => bucketOf w s.timestamp == k) with
        | nil => rw [hgc] at hagg; simp [aggBucket] at hagg
        | cons x xs => exact ⟨x, List.mem_cons_self x xs⟩
      obtain ⟨x, hx⟩ := hgne
      obtain ⟨hxdf, hxk⟩ := List.mem_filter.mp hx
      have hxk' : bucketOf w x.timestamp = k := by simpa using hxk
      have hkeys : k ∈ (b0 :: rest).map (fun s => bucketOf w s.timestamp) :=
        hxk' ▸ List.mem_map_of_mem _ hxdf
      have hlo := foldl_min_le_mem (bucketOf w b0.timestamp) hkeys
      have hhi := le_foldl_max_mem (bucketOf w b0.timestamp) hkeys
      rw [List.mem_range'_1]
      omega

/-- The aggregation of a nonempty bucket has the claimed OHLCV fields:
open from the earliest bar of the bucket, close from the latest, high
the maximum, low the minimum, volume the sum — and its own timestamp
falls back into the bucket. -/
theorem aggBucket_fields (w k : ℕ) (hw : 0 < w) (df : List Bar)
    (hsorted : df.Pairwise (fun a b => a.timestamp < b.timestamp)) (b : Bar)
    (hagg : aggBucket w k (df.filter (fun s => bucketOf w s.timestamp == k)) = some b) :
    bucketOf w b.timestamp = k ∧
    df.filter (fun s => bucketOf w s.timestamp == k) ≠ [] ∧
    (∃ x ∈ df, bucketOf w x.timestamp = k ∧
       (∀ y ∈ df, bucketOf w y.timestamp = k → x.timestamp ≤ y.timestamp) ∧
       b.open_ = x.open_) ∧
    (∃ x ∈ df, bucketOf w x.timestamp = k ∧
       (∀ y ∈ df, bucketOf w y.timestamp = k → y.timestamp ≤ x.timestamp) ∧
       b.close = x.close) ∧
    (∃ x ∈ df, bucketOf w x.timestamp = k ∧ b.high = x.high) ∧
    (∀ y ∈ df, bucketOf w y.timestamp = k → y.high ≤ b.high) ∧
    (∃ x ∈ df, bucketOf w x.timestamp = k ∧ b.low = x.low) ∧
    (∀ y ∈ df, bucketOf w y.timestamp = k → b.low ≤ y.low) ∧
    b.volume = ((df.filter (fun s => bucketOf w s.timestamp == k)).map Bar.volume).sum := by
  cases hgc : df.filter (fun s => bucketOf w s.timestamp == k) with
  | nil => rw [hgc] at hagg; simp [aggBucket] at hagg
  | cons x xs =>
    rw [hgc] at hagg
    have hb : b = aggOf w k x xs := by
      have h2 := hagg
      simp only [aggBucket, Option.some.injEq] at h2
      exact h2.symm
    subst hb
    have hmemg : ∀ y : Bar, y ∈ x :: xs ↔
        y ∈ df ∧ bucketOf w y.timestamp = k := by
      intro y
      rw [← hgc, List.mem_filter]
      simp
    have hpair : (x :: xs).Pairwise (fun a c => a.timestamp < c.timestamp) := by
      rw [← hgc]
      exact hsorted.sublist (List.filter_sublist df)
    have hxm := (hmemg x).mp (List.mem_cons_self x xs)
    have hfoldh : xs.foldl (fun acc c => max acc c.high) x.high =
        (xs.map Bar.high).foldl max x.high := by rw [List.foldl_map]
    have hfoldl : xs.foldl (fun acc c => min acc c.low) x.low =
        (xs.map Bar.low).foldl min x.low := by rw [List.foldl_map]
    refine ⟨?_, ?_, ?_, ?_, ?_, ?_, ?_, ?_, ?_⟩
    · exact Nat.mul_div_cancel k hw
    · simp
    · refine ⟨x, hxm.1, hxm.2, ?_, rfl⟩
      intro y hy hyk
      have hyg := (hmemg y).mpr ⟨hy, hyk⟩
      rcases List.mem_cons.mp hyg with rfl | h
      · exact le_refl _
      · exact le_of_lt (List.rel_of_pairwise_cons hpair h)
    · have hlm := (hmemg (xs.getLastD x)).mp (getLastD_mem x xs)
      refine ⟨xs.getLastD x, hlm.1, hlm.2, ?_, rfl⟩
      intro y hy hyk
      exact getLastD_timestamp_ge x xs hpair y ((hmemg y).mpr ⟨hy, hyk⟩)
    · rcases foldl_max_choice (xs.map Bar.high) x.high with h | h
      · refine ⟨x, hxm.1, hxm.2, ?_⟩
        show xs.foldl (fun acc c => max acc c.high) x.high = x.high
        rw [hfoldh]
        exact h
      · obtain ⟨y, hy, hyh⟩ := List.mem_map.mp h
        have hym := (hmemg y).mp (List.mem_cons_of_mem x hy)
        refine ⟨y, hym.1, hym.2, ?_⟩
        show xs.foldl (fun acc c => max acc c.high) x.high = y.high
        rw [hfoldh]
        exact hyh.symm
    · intro y hy hyk
      have hyg := (hmemg y).mpr ⟨hy, hyk⟩
      show y.high ≤ xs.foldl (fun acc c => max acc c.high) x.high
      rw [hfoldh]
      rcases List.mem_cons.mp hyg with rfl | h
      · exact le_foldl_max_init _ _
      · exact le_foldl_max_mem _ (List.mem_map_of_mem _ h)
    · rcases foldl_min_choice (xs.map Bar.low) x.low with h | h
      · refine ⟨x, hxm.1, hxm.2, ?_⟩
        show xs.foldl (fun acc c => min acc c.low) x.low = x.low
        rw [hfoldl]
        exact h
      · obtain ⟨y, hy, hyl⟩ := List.mem_map.mp h
        have hym := (hmemg y).mp (List.mem_cons_of_mem x hy)
        refine ⟨y, hym.1, hym.2, ?_⟩
        show xs.foldl (fun acc c => min acc c.low) x.low = y.low
        rw [hfoldl]
        exact hyl.symm
    · intro y hy hyk
      have hyg := (hmemg y).mpr ⟨hy, hyk⟩
      show xs.foldl (fun acc c => min acc c.low) x.low ≤ y.low
      rw [hfoldl]
      rcases List.mem_cons.mp hyg with rfl | h
      · exact foldl_min_le_init _ _
      · exact foldl_min_le_mem _ (List.mem_map_of_mem _ h)
    · show xs.foldl (fun acc c => acc + c.volume) x.volume =
        ((x :: xs).map Bar.volume).sum
      rw [List.map_cons, List.sum_cons]
      rw [show xs.foldl (fun acc c => acc + c.volume) x.volume =
          (xs.map Bar.volume).foldl (· + ·) x.volume from by rw [List.foldl_map]]
      rw [foldl_add_eq]

/-- C2: for an ordered bar sequence and a supported timeframe, every
aggregated bar takes its open from the earliest source bar of its
bucket, its close from the latest, its high as the bucket maximum, its
low as the bucket minimum and its volume as the bucket sum; and a
bucket appears in the output exactly when it has source bars, so any
bucket whose aggregation would miss an OHLC field (an empty bucket) is
absent rather than emitted partially. -/
theorem resample_bucket_correct (df : List Bar) (tf : String) (w : ℕ)
    (hw : timeframe_map tf = some w)
    (hsorted : df.Pairwise (fun a b => a.timestamp < b.timestamp))
    (hne : df ≠ []) :
    ∃ out, resample_to_timeframe df tf = some out ∧
      (∀ b ∈ out,
        df.filter (fun s => bucketOf w s.timestamp == bucketOf w b.timestamp) ≠ [] ∧
        (∃ x ∈ df, bucketOf w x.timestamp = bucketOf w b.timestamp ∧
           (∀ y ∈ df, bucketOf w y.timestamp = bucketOf w b.timestamp →
              x.timestamp ≤ y.timestamp) ∧ b.open_ = x.open_) ∧
        (∃ x ∈ df, bucketOf w x.timestamp = bucketOf w b.timestamp ∧
           (∀ y ∈ df, bucketOf w y.timestamp = bucketOf w b.timestamp →
              y.timestamp ≤ x.timestamp) ∧ b.close = x.close) ∧
        (∃ x ∈ df, bucketOf w x.timestamp = bucketOf w b.timestamp ∧ b.high = x.high) ∧
        (∀ y ∈ df, bucketOf w y.timestamp = bucketOf w b.timestamp → y.high ≤ b.high) ∧
        (∃ x ∈ df, bucketOf w x.timestamp = bucketOf w b.timestamp ∧ b.low = x.low) ∧
        (∀ y ∈ df, bucketOf w y.timestamp = bucketOf w b.timestamp → b.low ≤ y.low) ∧
        b.volume = ((df.filter
          (fun s => bucketOf w s.timestamp == bucketOf w b.timestamp)).map
            Bar.volume).sum) ∧
      (∀ k : ℕ, (∃ b ∈ out, bucketOf w b.timestamp = k) ↔
        ∃ s ∈ df, bucketOf w s.timestamp = k) := by
  have hw0 : 0 < w := timeframe_map_pos tf w hw
  have hie : df.isEmpty = false := by
    cases df
    · exact absurd rfl hne
    · rfl
  refine ⟨resampleAgg w df, ?_, ?_, ?_⟩
  · simp [resample_to_timeframe, hie, hw]
  · intro b hb
    obtain ⟨k, hagg⟩ := (mem_resampleAgg_iff w df b).mp hb
    obtain ⟨hbk, hfields⟩ := aggBucket_fields w k hw0 df hsorted b hagg
    rw [hbk]
    exact hfields
  · intro k
    constructor
    · rintro ⟨b, hb, hbk⟩
      obtain ⟨k', hagg⟩ := (mem_resampleAgg_iff w df b).mp hb
      obtain ⟨hbk', _, hopen, _⟩ := aggBucket_fields w k' hw0 df hsorted b hagg
      have hkk : k' = k := hbk'.symm.trans hbk
      obtain ⟨x, hx, hxk, _, _⟩ := hopen
      rw [hkk] at hxk
      exact ⟨x, hx, hxk⟩
    · rintro ⟨s, hs, hsk⟩
      have hsf : s ∈ df.filter (fun q => bucketOf w q.timestamp == k) :=
        List.mem_filter.mpr ⟨hs, by simp [hsk]⟩
      cases hgc : df.filter (fun q => bucketOf w q.timestamp == k) with
      | nil =>
        rw [hgc] at hsf
        simp at hsf
      | cons x xs =>
        have hagg : aggBucket w k (df.filter (fun q => bucketOf w q.timestamp == k)) =
            some (aggOf w k x xs) := by rw [hgc]; rfl
        refine ⟨aggOf w k x xs, (mem_resampleAgg_iff w df _).mpr ⟨k, hagg⟩, ?_⟩
        exact Nat.mul_div_cancel k hw0

/-- Witness for C2 on minute bars `0,1,2,6` resampled to 3 minutes:
the pipeline succeeds and the half-covered bucket `1` (minutes 3–5) is
absent from the output. -/
theorem resample_bucket_correct_witness :
    ∃ out, resample_to_timeframe dfResample "3m" = some out ∧
      ¬∃ b ∈ out, bucketOf 3 b.timestamp = 1 := by
  obtain ⟨out, hout, _, hpres⟩ :=
    resample_bucket_correct dfResample "3m" 3 (by decide) (by decide) (by decide)
  refine ⟨out, hout, ?_⟩
  intro hcontra
  exact absurd ((hpres 1).mp hcontra) (by decide)

end TradingSim
